import Mathlib

/-!
Verification of the metadata indexing, filtering and realtime fan-out core of
the s3-bucket-browser backend (package `api` plus its `models`, `cache` and
`s3` collaborators), shallowly embedded in Lean.

Strings are modelled as `List Char` (`Str`), which matches Go's byte-wise
string comparison on these ASCII keys and values.  Machine integers (`int64`,
`int`) are modelled as `Int`; where an overflow check of the source matters
(`strconv.ParseInt` with bit size 64) it is modelled by an explicit range
check rather than wrap-around, because `ParseInt` reports overflow as an
error instead of wrapping.
-/

namespace S3B

abbrev Str := List Char

/-- Character class of Go regexp `\d` (ASCII digits). -/
def isDigitC (c : Char) : Bool := c.isDigit

/-- Character class of Go regexp `[A-Za-z0-9]` (ASCII letters and digits). -/
def isAlnumC (c : Char) : Bool := c.isAlpha || c.isDigit

/-- Decimal value of a digit string, most significant digit first. -/
def digitsToNat (l : Str) : Nat := l.foldl (fun acc c => acc * 10 + (c.toNat - 48)) 0

/-- Largest signed 64-bit integer, the bound used by `strconv.ParseInt(s, 10, 64)`. -/
def maxInt64N : Nat := 9223372036854775807

/-- Go `strconv` body parse: a non-empty run of ASCII digits. -/
def parseDigits (l : Str) : Option Nat :=
  if l ≠ [] ∧ l.all isDigitC then some (digitsToNat l) else none

/-- Model of Go `strconv.ParseInt(s, 10, 64)` (and of `strconv.Atoi` on a
64-bit platform): optional sign, at least one digit, value within the signed
64-bit range; anything else is an error, modelled as `none`.  Overflow is an
error in Go (the clamped value it also returns is discarded by every caller
in this code base that checks `err`). -/
def parseInt64 (s : Str) : Option Int :=
  match s with
  | [] => none
  | c :: rest =>
    if c = '-' then
      match parseDigits rest with
      | some n => if (n : Int) ≤ 9223372036854775808 then some (-(n : Int)) else none
      | none => none
    else
      let body := if c = '+' then rest else s
      match parseDigits body with
      | some n => if n ≤ maxInt64N then some ((n : Int)) else none
      | none => none

/-- The literal `snapshot-` of the sidecar regex. -/
def snapLit : Str := ['s', 'n', 'a', 'p', 's', 'h', 'o', 't', '-']

/-- The literal `snapshot-` without its trailing hyphen, so that
`snapLit = snapInit ++ ['-']` exposes the hyphen that terminates any
digit run read backwards from the separator. -/
def snapInit : Str := ['s', 'n', 'a', 'p', 's', 'h', 'o', 't']

/-- The literal `.json` of the sidecar regex. -/
def jsonLit : Str := ['.', 'j', 's', 'o', 'n']

/-- One attempt of the Go regexp `snapshot-(\d+)-([A-Za-z0-9]+)\.json$` at a
fixed start position: the argument is the suffix of the key starting there.
Both repetitions are greedy and need no backtracking (shrinking `\d+` puts a
digit where `-` is required; shrinking `[A-Za-z0-9]+` puts an alphanumeric
character where `.` is required), so maximal runs model RE2 exactly. -/
def tryMatch (s : Str) : Option (Str × Str) :=
  if snapLit.isPrefixOf s then
    let r := s.drop 9
    let d := r.takeWhile isDigitC
    let r1 := r.dropWhile isDigitC
    if d ≠ [] ∧ r1.head? = some '-' then
      let r2 := r1.tail
      let a := r2.takeWhile isAlnumC
      let r3 := r2.dropWhile isAlnumC
      if a ≠ [] ∧ r3 = jsonLit then some (d, a) else none
    else none
  else none

/-- Leftmost-position search of `snapshotRegex`, the semantics of
`FindStringSubmatch` / `MatchString`. -/
def findMatch : Str → Option (Str × Str)
  | [] => none
  | c :: rest =>
    match tryMatch (c :: rest) with
    | some r => some r
    | none => findMatch rest

/-- `isSnapshotMetadataFile` from `handlers.go`: `snapshotRegex.MatchString(key)`. -/
def isSnapshotMetadataFile (key : Str) : Bool := (findMatch key).isSome

/-- `extractSlotAndNode` from `handlers.go`: apply the sidecar regex, then
`strconv.ParseInt(matches[1], 10, 64)`; on no match or parse error the
documented unknown result `(0, "")`. -/
def extractSlotAndNode (key : Str) : Int × Str :=
  match findMatch key with
  | none => (0, [])
  | some (d, a) =>
    match parseInt64 d with
    | some v => (v, a)
    | none => (0, [])

/-! ### Sorting

`sort.Slice` and `sort.Strings` guarantee only that the result is a
permutation of the input that is pairwise consistent with the comparator
(when the comparator is a strict weak order).  We model that contract with a
concrete insertion sort parameterised by a boolean "may come before"
relation `le a b := !(less b a)`. -/

/-- Insert `a` in front of the first element `b` with `le a b`. -/
def insertByLe {α : Type _} (le : α → α → Bool) (a : α) : List α → List α
  | [] => [a]
  | b :: l => if le a b then a :: b :: l else b :: insertByLe le a l

/-- Insertion sort by `le`; models the `sort.Slice` / `sort.Strings` contract. -/
def sortByLe {α : Type _} (le : α → α → Bool) : List α → List α
  | [] => []
  | a :: l => insertByLe le a (sortByLe le l)

/-- Go `<` on strings: lexicographic, byte-wise (equal to code-point order on
these ASCII values). -/
def strLt : Str → Str → Bool
  | [], [] => false
  | [], _ :: _ => true
  | _ :: _, [] => false
  | a :: as, b :: bs =>
    if a.toNat < b.toNat then true
    else if b.toNat < a.toNat then false
    else strLt as bs

/-- `sort.Strings` comparator lifted to "may come before". -/
def strLe (a b : Str) : Bool := !(strLt b a)

/-- `strings.Split(s, ".")`. -/
def splitOnDot : Str → List Str
  | [] => [[]]
  | c :: rest =>
    match splitOnDot rest with
    | [] => [[]]
    | w :: ws => if c = '.' then [] :: w :: ws else (c :: w) :: ws

/-- One major/minor comparison block of the version comparator in
`indexMetadata`: decides only when both components are present, both parse,
and the values differ. -/
def stageNE (x y : Option Str) : Option Bool :=
  match x, y with
  | some a, some b =>
    (match parseInt64 a, parseInt64 b with
     | some va, some vb => if va ≠ vb then some (decide (va < vb)) else none
     | _, _ => none)
  | _, _ => none

/-- The patch comparison block: decides whenever both components are present
and parse, even when the values are equal. -/
def stagePatch (x y : Option Str) : Option Bool :=
  match x, y with
  | some a, some b =>
    (match parseInt64 a, parseInt64 b with
     | some va, some vb => some (decide (va < vb))
     | _, _ => none)
  | _, _ => none

/-- The `sort.Slice` comparator for the solana-version facet in
`indexMetadata`: numeric major, then minor, then patch, then a full-string
lexicographic fallback. -/
def versionLess (x y : Str) : Bool :=
  let vI := splitOnDot x
  let vJ := splitOnDot y
  match stageNE vI[0]? vJ[0]? with
  | some r => r
  | none =>
    match stageNE vI[1]? vJ[1]? with
    | some r => r
    | none =>
      match stagePatch vI[2]? vJ[2]? with
      | some r => r
      | none => strLt x y

/-- Version comparator lifted to "may come before". -/
def versionLe (a b : Str) : Bool := !(versionLess b a)

/-- Facet ordering of the solana-version facet (`sort.Slice` with
`versionLess`). -/
def sortVersions (l : List Str) : List Str := sortByLe versionLe l

/-- The sentinel label of the lowest slot-range bucket. -/
def ltOneM : Str := ['<', ' ', '1', 'M']

/-- The literal string `unknown`, excluded from facets by `indexMetadata`. -/
def unknownLit : Str := ['u', 'n', 'k', 'n', 'o', 'w', 'n']

/-- The leading number of a slot-range label, via the regexp `^(\d+)M` with
`strconv.Atoi` whose error is discarded (so an overflowing number clamps to
the largest 64-bit value, as `Atoi` returns that clamped value). -/
def leadingNumM (s : Str) : Nat :=
  let d := s.takeWhile isDigitC
  if d ≠ [] ∧ (s.dropWhile isDigitC).head? = some 'M' then min (digitsToNat d) maxInt64N else 0

/-- The `sort.Slice` comparator for the slot-range facet in `indexMetadata`:
the `< 1M` sentinel first, then ascending leading number. -/
def slotRangeLess (a b : Str) : Bool :=
  let aNum := leadingNumM a
  let bNum := leadingNumM b
  if a = ltOneM then true
  else if b = ltOneM then false
  else decide (aNum < bNum)

/-- Slot-range comparator lifted to "may come before". -/
def slotRangeLe (a b : Str) : Bool := !(slotRangeLess b a)

/-! ### Slot ranges -/

/-- Fuel-driven decimal rendering helper (the fuel argument only makes the
recursion structural; `natDigits` supplies enough fuel). -/
def natDigitsCore : Nat → Nat → Str
  | 0, _ => []
  | fuel + 1, n =>
    if n < 10 then [Char.ofNat (48 + n)]
    else natDigitsCore fuel (n / 10) ++ [Char.ofNat (48 + n % 10)]

/-- Decimal rendering of a natural number. -/
def natDigits (n : Nat) : Str := natDigitsCore (n + 1) n

/-- Model of `strconv.FormatInt(i, 10)`. -/
def intDigits (i : Int) : Str :=
  if i < 0 then '-' :: natDigits i.natAbs else natDigits i.natAbs

/-- `getSlotRange` from `handlers.go`.  Go `/` on `int64` truncates toward
zero, which is `Int.tdiv`. -/
def getSlotRange (slot : Int) : Str :=
  let rangeStart := (Int.tdiv slot 1000000) * 1000000
  let rangeEnd := rangeStart + 1000000
  if rangeStart = 0 then ltOneM
  else intDigits (Int.tdiv rangeStart 1000000) ++ ['M', '-'] ++ intDigits (Int.tdiv rangeEnd 1000000) ++ ['M']

/-! ### Metadata records and filters

Go `time.Time` values in this code are either the zero value or created by
`time.Unix(sec, 0)` / `time.Parse` / `time.Date`, so each is determined by
its instant; we model an instant as its Unix second count (`Int`).  The zero
`time.Time` (January 1, year 1 UTC) is the instant `zeroTimeU`; `IsZero`
compares the instant, and `Before`/`After` are `<`/`>` on instants. -/

/-- Unix seconds of the zero `time.Time` (January 1, year 1, 00:00:00 UTC). -/
def zeroTimeU : Int := -62135596800

/-- `models.Metadata`.  Field defaults are the Go zero values the decoder
leaves in place when a field is absent. -/
structure Metadata where
  solanaVersion : Str := []
  solanaFeatureSet : Int := 0
  slot : Int := 0
  timestamp : Int := zeroTimeU
  hash : Str := []
  status : Str := []
  uploadedBy : Str := []
  uploadedAt : Int := zeroTimeU
  fileSize : Int := 0
  fileName : Str := []
  node : Str := []
  slotRange : Str := []
  deriving DecidableEq, Repr

/-- `models.MetadataFilter` (the fields `matchesFilter` reads). -/
structure MetadataFilter where
  solanaVersion : Str := []
  status : Str := []
  uploadedBy : Str := []
  node : Str := []
  slotRange : Str := []
  searchTerm : Str := []
  minSlot : Int := 0
  maxSlot : Int := 0
  startTime : Int := zeroTimeU
  endTime : Int := zeroTimeU
  deriving DecidableEq, Repr

/-- The all-empty / zero-valued filter. -/
def emptyFilter : MetadataFilter := {}

/-- ASCII model of `strings.ToLower` (all values in this pipeline are ASCII). -/
def toLowerS (s : Str) : Str := s.map Char.toLower

/-- `strings.Contains(s, sub)`: `sub` occurs contiguously in `s` (the empty
string occurs in everything). -/
def strContains : Str → Str → Bool
  | [], sub => sub.isEmpty
  | c :: rest, sub => sub.isPrefixOf (c :: rest) || strContains rest sub

/-- The search-term clause of `matchesFilter`: case-insensitive substring
over version, status, uploader, node, hash and file name. -/
def searchHit (m : Metadata) (term : Str) : Bool :=
  let s := toLowerS term
  strContains (toLowerS m.solanaVersion) s ||
  strContains (toLowerS m.status) s ||
  strContains (toLowerS m.uploadedBy) s ||
  strContains (toLowerS m.node) s ||
  strContains (toLowerS m.hash) s ||
  strContains (toLowerS m.fileName) s

/-- `matchesFilter` from `handlers.go`, as its early-return chain. -/
def matchesFilter (m : Metadata) (f : MetadataFilter) : Bool :=
  if f.solanaVersion ≠ [] ∧ m.solanaVersion ≠ f.solanaVersion then false
  else if f.status ≠ [] ∧ m.status ≠ f.status then false
  else if f.uploadedBy ≠ [] ∧ m.uploadedBy ≠ f.uploadedBy then false
  else if f.node ≠ [] ∧ m.node ≠ f.node then false
  else if f.slotRange ≠ [] ∧ m.slotRange ≠ f.slotRange then false
  else if f.minSlot > 0 ∧ m.slot < f.minSlot then false
  else if f.maxSlot > 0 ∧ m.slot > f.maxSlot then false
  else if f.startTime ≠ zeroTimeU ∧ m.timestamp < f.startTime then false
  else if f.endTime ≠ zeroTimeU ∧ m.timestamp > f.endTime then false
  else if f.searchTerm ≠ [] ∧ ¬searchHit m f.searchTerm then false
  else true

/-- The claim's reading of the filter: a conjunction of independent per-field
tests, each passing when its field is unset or when the record satisfies it
(equality for strings, inclusive bounds for slots and times, substring for
the search term). -/
def claimKeeps (m : Metadata) (f : MetadataFilter) : Bool :=
  decide (f.solanaVersion = [] ∨ m.solanaVersion = f.solanaVersion) &&
  decide (f.status = [] ∨ m.status = f.status) &&
  decide (f.uploadedBy = [] ∨ m.uploadedBy = f.uploadedBy) &&
  decide (f.node = [] ∨ m.node = f.node) &&
  decide (f.slotRange = [] ∨ m.slotRange = f.slotRange) &&
  decide (f.minSlot = 0 ∨ f.minSlot ≤ m.slot) &&
  decide (f.maxSlot = 0 ∨ m.slot ≤ f.maxSlot) &&
  decide (f.startTime = zeroTimeU ∨ f.startTime ≤ m.timestamp) &&
  decide (f.endTime = zeroTimeU ∨ m.timestamp ≤ f.endTime) &&
  (decide (f.searchTerm = []) || searchHit m f.searchTerm)

/-! ### Sorting of query results -/

/-- The `sort.Slice` comparator of `ListMetadata`: slot descending when
either timestamp is the zero time, timestamp descending otherwise. -/
def metadataLess (a b : Metadata) : Bool :=
  if a.timestamp = zeroTimeU ∨ b.timestamp = zeroTimeU then decide (a.slot > b.slot)
  else decide (a.timestamp > b.timestamp)

/-- Query comparator lifted to "may come before". -/
def metadataSortLe (a b : Metadata) : Bool := !(metadataLess b a)

/-- The sort step of `ListMetadata`. -/
def sortMetadata (l : List Metadata) : List Metadata := sortByLe metadataSortLe l

/-- The claim's pairwise requirement on an ordered pair of the sorted list:
timestamp descending when both timestamps are known, slot descending when at
least one is the zero time. -/
def pairOkB (a b : Metadata) : Bool :=
  (if a.timestamp ≠ zeroTimeU ∧ b.timestamp ≠ zeroTimeU then decide (b.timestamp ≤ a.timestamp) else true) &&
  (if a.timestamp = zeroTimeU ∨ b.timestamp = zeroTimeU then decide (b.slot ≤ a.slot) else true)

/-- The claim's requirement over a whole list: every ordered pair satisfies
`pairOkB`. -/
def claimOrderedB : List Metadata → Bool
  | [] => true
  | a :: rest => rest.all (pairOkB a) && claimOrderedB rest

/-! ### Pagination -/

/-- `calculatePaginationBounds` from `handlers.go`. -/
def calculatePaginationBounds (page pageSize totalItems : Int) : Int × Int :=
  let start := (page - 1) * pageSize
  let e := start + pageSize
  if start ≥ totalItems then (0, 0)
  else if e > totalItems then (start, totalItems)
  else (start, e)

/-- The pagination step of `ListMetadata`: total count first, then the slice
`metadataList[start:end]` (with the in-handler clamp of `end`), or an empty
page when `start` is at or past the total. -/
def paginateMetadata (l : List Metadata) (page pageSize : Int) : List Metadata × Int :=
  let totalCount : Int := l.length
  let se := calculatePaginationBounds page pageSize totalCount
  let items :=
    if se.1 < totalCount then
      let e2 := if se.2 > totalCount then totalCount else se.2
      (l.take e2.toNat).drop se.1.toNat
    else []
  (items, totalCount)

/-- The `page` block of `getPaginationParams`: default 1, a parsed positive
value overrides. -/
def pageParam (pageStr : Str) : Int :=
  if pageStr ≠ [] then
    match parseInt64 pageStr with
    | some v => if v > 0 then v else 1
    | none => 1
  else 1

/-- The `page_size` block of `getPaginationParams`: default 20, a parsed
positive value overrides, clamped to 100. -/
def pageSizeParam (pageSizeStr : Str) : Int :=
  if pageSizeStr ≠ [] then
    match parseInt64 pageSizeStr with
    | some v => if v > 0 then (if v > 100 then 100 else v) else 20
    | none => 20
  else 20

/-- `getPaginationParams` from `handlers.go`; the two arguments are the raw
`page` and `page_size` query values, the empty string when absent. -/
def getPaginationParams (pageStr pageSizeStr : Str) : Int × Int :=
  (pageParam pageStr, pageSizeParam pageSizeStr)

/-! ### Realtime hub -/

/-- A registered push client: an identity and its bounded outbound queue
(`send chan []byte` of capacity 256 in `ServeWs`). -/
structure HClient where
  id : Nat
  queue : List Str
  deriving DecidableEq, Repr

/-- The broadcast arm of `Hub.Run`: a non-blocking send to every registered
client (`select` with a `default` branch); a client whose queue is full is
closed and removed instead of delivered to.  `cap` is the queue capacity. -/
def broadcastStep (cap : Nat) (clients : List HClient) (m : Str) : List HClient :=
  clients.filterMap fun c =>
    if c.queue.length < cap then some { c with queue := c.queue ++ [m] } else none

/-! ### The indexing pass

The JSON layer is embedded at the granularity the handlers observe: a fetched
sidecar body either decodes as the strict `SimpleMetadata` struct, or fails
that and decodes as a generic string-keyed map (each extracted field present
only when it has the looked-up dynamic type), or fails both. -/

/-- `SimpleMetadata` (strict decode); absent fields are the zero value. -/
structure StrictDoc where
  solanaVersion : Str := []
  status : Str := []
  uploadedBy : Str := []
  deriving DecidableEq, Repr

/-- A sidecar body that decodes only as a generic map; a field is `some`
exactly when present with the dynamic type the handler asserts (`string` for
the text fields, `float64`, already cast to `int64`, for `slot` and
`timestamp`). -/
structure GenericDoc where
  solanaVersionF : Option Str := none
  statusF : Option Str := none
  uploadedByF : Option Str := none
  slotF : Option Int := none
  hashF : Option Str := none
  timestampF : Option Int := none
  deriving DecidableEq, Repr

/-- Decode outcome of one fetched sidecar body. -/
inductive ParsedDoc where
  | strict (d : StrictDoc)
  | generic (g : GenericDoc)
  | unparsable
  deriving DecidableEq, Repr

/-- A successful `GetObject` + `ReadAll`: the decoded body and the reported
content length. -/
structure FetchOutcome where
  doc : ParsedDoc
  contentLength : Int := 0
  deriving DecidableEq, Repr

/-- A bucket listing entry (the indexing pass reads only the key; the
service computes `IsMetadata` as the `.json` suffix check). -/
structure S3Object where
  key : Str
  deriving DecidableEq, Repr

/-- `Object.IsMetadata` as the `s3` service sets it: `.json` suffix. -/
def objIsMetadata (o : S3Object) : Bool := jsonLit.isSuffixOf o.key

/-- `FilterOptions` from `handlers.go`. -/
structure FilterOptions where
  solanaVersions : List Str := []
  statuses : List Str := []
  uploadedBy : List Str := []
  nodes : List Str := []
  slotRanges : List Str := []
  deriving DecidableEq, Repr

/-- The all-empty facet set. -/
def emptyOptions : FilterOptions := {}

/-- The part of the handler state the indexing pass touches: the published
facets snapshot (guarded by `optionsLock` in the source; the pass writes it
at most once, so the lock is not modelled). -/
structure HandlerState where
  filterOptions : FilterOptions
  deriving DecidableEq, Repr

/-- What one `indexMetadata` invocation produces: the new handler state,
whether it called `ListObjects`, and every `cacheService.Set` it performed
(in order). -/
structure IndexResult where
  state : HandlerState
  didList : Bool
  cacheWrites : List FilterOptions
  deriving DecidableEq, Repr

/-- The environment one `indexMetadata` invocation runs against:
the cache lookup outcome for the facets key (`none` = no cache service,
miss, or cache error — all taken as a miss), the bucket listing outcome, and
the fetch-and-decode outcome per key. -/
structure IndexEnv where
  cacheResult : Option FilterOptions
  listing : Except Unit (List S3Object)
  fetch : Str → Except Unit FetchOutcome

/-- Go map-as-set insertion (`m[k] = true`), modelled on a duplicate-free
list. -/
def insertSet (l : List Str) (x : Str) : List Str := if x ∈ l then l else l ++ [x]

/-- The per-pass facet accumulator maps of `indexMetadata`. -/
structure FacetAcc where
  versions : List Str := []
  statuses : List Str := []
  uploaders : List Str := []
  nodes : List Str := []
  slotRanges : List Str := []
  deriving DecidableEq, Repr

/-- The strict-struct branch of the worker: guarded inserts of the three
string facets. -/
def addStrict (acc : FacetAcc) (d : StrictDoc) : FacetAcc :=
  let a1 := if d.solanaVersion ≠ [] ∧ d.solanaVersion ≠ unknownLit then
      { acc with versions := insertSet acc.versions d.solanaVersion } else acc
  let a2 := if d.status ≠ [] ∧ d.status ≠ unknownLit then
      { a1 with statuses := insertSet a1.statuses d.status } else a1
  if d.uploadedBy ≠ [] ∧ d.uploadedBy ≠ unknownLit then
    { a2 with uploaders := insertSet a2.uploaders d.uploadedBy } else a2

/-- The generic-map fallback branch of the worker: the same guarded inserts,
only for fields present as strings. -/
def addGeneric (acc : FacetAcc) (g : GenericDoc) : FacetAcc :=
  let a1 := match g.solanaVersionF with
    | some v => if v ≠ [] ∧ v ≠ unknownLit then { acc with versions := insertSet acc.versions v } else acc
    | none => acc
  let a2 := match g.statusF with
    | some v => if v ≠ [] ∧ v ≠ unknownLit then { a1 with statuses := insertSet a1.statuses v } else a1
    | none => a1
  match g.uploadedByF with
  | some v => if v ≠ [] ∧ v ≠ unknownLit then { a2 with uploaders := insertSet a2.uploaders v } else a2
  | none => a2

/-- The filename part of one worker iteration: node and slot-range facets
from `extractSlotAndNode`, inserted when slot and node are both known. -/
def fileNameFacets (acc : FacetAcc) (key : Str) : FacetAcc :=
  if (extractSlotAndNode key).1 > 0 ∧ (extractSlotAndNode key).2 ≠ [] then
    { acc with nodes := insertSet acc.nodes (extractSlotAndNode key).2,
               slotRanges := insertSet acc.slotRanges (getSlotRange (extractSlotAndNode key).1) }
  else acc

/-- The body part of one worker iteration: a failed fetch skips the file
(`continue`), a fetched body goes through the two-tier decode. -/
def bodyFacets (acc : FacetAcc) : Except Unit FetchOutcome → FacetAcc
  | .error _ => acc
  | .ok ⟨.strict d, _⟩ => addStrict acc d
  | .ok ⟨.generic g, _⟩ => addGeneric acc g
  | .ok ⟨.unparsable, _⟩ => acc

/-- One worker iteration of `indexMetadata`: filename-derived facets first,
then fetch and decode. -/
def indexFileStep (fetch : Str → Except Unit FetchOutcome) (acc : FacetAcc) (key : Str) : FacetAcc :=
  bodyFacets (fileNameFacets acc key) (fetch key)

/-- The whole worker pool over the sidecar file list.  The workers share one
mutex-guarded accumulator and set-insertion commutes, so any serialisation
yields the same sets; we fold in list order. -/
def runIndexAcc (fetch : Str → Except Unit FetchOutcome) (files : List Str) : FacetAcc :=
  files.foldl (indexFileStep fetch) {}

/-- Conversion of the accumulator maps to the sorted facet lists. -/
def buildOptions (acc : FacetAcc) : FilterOptions :=
  { solanaVersions := sortVersions acc.versions
    statuses := sortByLe strLe acc.statuses
    uploadedBy := sortByLe strLe acc.uploaders
    nodes := sortByLe strLe acc.nodes
    slotRanges := sortByLe slotRangeLe acc.slotRanges }

/-- `indexMetadata` from `handlers.go` as a state transition: cache hit
adopts the cached facets and returns; otherwise list (a failure aborts the
pass), filter to sidecar files, publish the all-empty facets when none
exist, or run the worker pool and publish the built facets.  `cacheWrites`
records every `cacheService.Set` call the pass makes — the source performs
none (its `cacheExpiration` constant is declared but never used). -/
def indexMetadata (env : IndexEnv) (s : HandlerState) : IndexResult :=
  match env.cacheResult with
  | some opts => { state := { filterOptions := opts }, didList := false, cacheWrites := [] }
  | none =>
    match env.listing with
    | .error _ => { state := s, didList := true, cacheWrites := [] }
    | .ok objs =>
      let metadataFiles := (objs.filter fun o => objIsMetadata o && isSnapshotMetadataFile o.key).map S3Object.key
      if metadataFiles = [] then
        { state := { filterOptions := emptyOptions }, didList := true, cacheWrites := [] }
      else
        { state := { filterOptions := buildOptions (runIndexAcc env.fetch metadataFiles) },
          didList := true, cacheWrites := [] }

/-! ### Claim-side definitions -/

/-- The exact sidecar key shape of the claims:
`snapshot-<digits>-<alnum>.json` with nothing before or after. -/
def snapKey (d a : Str) : Str := snapLit ++ d ++ '-' :: (a ++ jsonLit)

/-- Decidable test that a key is exactly of the sidecar shape (a match of
the pattern starting at position 0 and consuming the whole key). -/
def isExactSidecarShape (key : Str) : Bool := (tryMatch key).isSome

/-- The spec's description of `slotRange`, written from its words: the
`< 1M` sentinel below one million, otherwise `<startM>-<endM>` with
start = floor(slot / 1e6) * 1e6, displayed in millions. -/
def slotRangeSpec (slot : Int) : Str :=
  if slot < 1000000 then ltOneM
  else intDigits (Int.tdiv slot 1000000) ++ ['M', '-'] ++ intDigits (Int.tdiv slot 1000000 + 1) ++ ['M']

/-- A component that is a plain number for the version comparator: non-empty,
all digits, within the 64-bit range `strconv.Atoi` accepts. -/
def pureDigits (l : Str) : Prop := l ≠ [] ∧ l.all isDigitC = true ∧ digitsToNat l ≤ maxInt64N

/-- A three-component version string `<x>.<y>.<z>`. -/
def verStr (x y z : Str) : Str := x ++ '.' :: (y ++ '.' :: z)

/-- The claim's numeric version order: major, then minor, then patch. -/
def numLess (m1 m2 m3 n1 n2 n3 : Nat) : Bool :=
  if m1 ≠ n1 then decide (m1 < n1)
  else if m2 ≠ n2 then decide (m2 < n2)
  else decide (m3 < n3)

/-- The facet invariant of the indexing accumulator: the three string facets
fed from sidecar bodies never hold the empty string or `unknown`. -/
def GoodAcc (acc : FacetAcc) : Prop :=
  (∀ x ∈ acc.versions, x ≠ [] ∧ x ≠ unknownLit) ∧
  (∀ x ∈ acc.statuses, x ≠ [] ∧ x ≠ unknownLit) ∧
  (∀ x ∈ acc.uploaders, x ≠ [] ∧ x ≠ unknownLit)

/-- The three mixed records of the sort-order analysis: two with known
timestamps whose slots are ordered against their timestamps, one with the
zero timestamp and a slot between theirs. -/
def mixA : Metadata := { timestamp := 1, slot := 30 }

/-- Second mixed record: later timestamp, smallest slot. -/
def mixB : Metadata := { timestamp := 2, slot := 10 }

/-- Third mixed record: zero timestamp, middle slot. -/
def mixC : Metadata := { slot := 20 }

/-! ### Lemmas about the sort model -/

theorem insertByLe_perm {α : Type _} (le : α → α → Bool) (a : α) (l : List α) :
    List.Perm (insertByLe le a l) (a :: l) := by
  induction l with
  | nil => exact List.Perm.refl _
  | cons b l ih =>
    unfold insertByLe
    split
    · exact List.Perm.refl _
    · exact (ih.cons b).trans (List.Perm.swap a b l)

theorem sortByLe_perm {α : Type _} (le : α → α → Bool) (l : List α) :
    List.Perm (sortByLe le l) l := by
  induction l with
  | nil => exact List.Perm.refl _
  | cons a l ih => exact (insertByLe_perm le a (sortByLe le l)).trans (ih.cons a)

theorem mem_sortByLe {α : Type _} {le : α → α → Bool} {l : List α} {x : α} :
    x ∈ sortByLe le l ↔ x ∈ l := (sortByLe_perm le l).mem_iff

theorem mem_insertByLe {α : Type _} {le : α → α → Bool} {a x : α} {l : List α} :
    x ∈ insertByLe le a l ↔ x = a ∨ x ∈ l := by
  rw [(insertByLe_perm le a l).mem_iff, List.mem_cons]

theorem pairwise_insertByLe {α : Type _} {P : α → Prop} {le : α → α → Bool}
    (htot : ∀ x y, P x → P y → le x y = true ∨ le y x = true)
    (htrans : ∀ x y z, P x → P y → P z → le x y = true → le y z = true → le x z = true)
    {a : α} {l : List α} (ha : P a) (hl : ∀ x ∈ l, P x)
    (hs : l.Pairwise fun x y => le x y = true) :
    (insertByLe le a l).Pairwise fun x y => le x y = true := by
  induction l with
  | nil => simp [insertByLe]
  | cons b l ih =>
    rcases List.pairwise_cons.mp hs with ⟨hb, hs'⟩
    have hPb : P b := hl b (List.mem_cons_self b l)
    have hPl : ∀ x ∈ l, P x := fun x hx => hl x (List.mem_cons_of_mem b hx)
    by_cases hab : le a b = true
    · rw [show insertByLe le a (b :: l) = a :: b :: l from by simp [insertByLe, hab]]
      refine List.pairwise_cons.mpr ⟨?_, hs⟩
      intro x hx
      rcases List.mem_cons.mp hx with rfl | hx
      · exact hab
      · exact htrans a b x ha hPb (hPl x hx) hab (hb x hx)
    · rw [show insertByLe le a (b :: l) = b :: insertByLe le a l from by simp [insertByLe, hab]]
      refine List.pairwise_cons.mpr ⟨?_, ih hPl hs'⟩
      intro x hx
      rcases mem_insertByLe.mp hx with hxa | hx
      · rw [hxa]
        rcases htot a b ha hPb with h | h
        · exact absurd h hab
        · exact h
      · exact hb x hx

theorem pairwise_sortByLe {α : Type _} {P : α → Prop} {le : α → α → Bool}
    (htot : ∀ x y, P x → P y → le x y = true ∨ le y x = true)
    (htrans : ∀ x y z, P x → P y → P z → le x y = true → le y z = true → le x z = true)
    (l : List α) (hl : ∀ x ∈ l, P x) :
    (sortByLe le l).Pairwise fun x y => le x y = true := by
  induction l with
  | nil => simp [sortByLe]
  | cons a l ih =>
    have hPl : ∀ x ∈ l, P x := fun x hx => hl x (List.mem_cons_of_mem a hx)
    exact pairwise_insertByLe htot htrans (hl a (List.mem_cons_self a l))
      (fun x hx => hPl x (mem_sortByLe.mp hx)) (ih hPl)

/-! ### Lemmas about the hub -/

theorem broadcast_delivers {cap : Nat} {clients : List HClient} {m : Str} {c : HClient}
    (hc : c ∈ clients) (hroom : c.queue.length < cap) :
    { c with queue := c.queue ++ [m] } ∈ broadcastStep cap clients m :=
  List.mem_filterMap.mpr ⟨c, hc, by simp [hroom]⟩

/-! ### Lemmas about the query comparator -/

theorem metadataSortLe_nonzero {x y : Metadata}
    (hx : x.timestamp ≠ zeroTimeU) (hy : y.timestamp ≠ zeroTimeU) :
    (metadataSortLe x y = true) ↔ y.timestamp ≤ x.timestamp := by
  simp [metadataSortLe, metadataLess, hx, hy]

theorem metadataSortLe_zero {x y : Metadata}
    (hx : x.timestamp = zeroTimeU) :
    (metadataSortLe x y = true) ↔ y.slot ≤ x.slot := by
  simp [metadataSortLe, metadataLess, hx]

/-! ### The filter as a conjunction -/

set_option maxHeartbeats 1000000 in
theorem matchesFilter_eq_claimKeeps (m : Metadata) (f : MetadataFilter)
    (hmin : 0 ≤ f.minSlot) (hmax : 0 ≤ f.maxSlot) :
    matchesFilter m f = claimKeeps m f := by
  unfold matchesFilter claimKeeps
  split_ifs with h1 h2 h3 h4 h5 h6 h7 h8 h9 h10
  · have hc : decide (f.solanaVersion = [] ∨ m.solanaVersion = f.solanaVersion) = false := by
      simp [h1.1, h1.2]
    rw [hc]; rfl
  · have hc : decide (f.status = [] ∨ m.status = f.status) = false := by
      simp [h2.1, h2.2]
    rw [hc]; simp
  · have hc : decide (f.uploadedBy = [] ∨ m.uploadedBy = f.uploadedBy) = false := by
      simp [h3.1, h3.2]
    rw [hc]; simp
  · have hc : decide (f.node = [] ∨ m.node = f.node) = false := by
      simp [h4.1, h4.2]
    rw [hc]; simp
  · have hc : decide (f.slotRange = [] ∨ m.slotRange = f.slotRange) = false := by
      simp [h5.1, h5.2]
    rw [hc]; simp
  · have hc : decide (f.minSlot = 0 ∨ f.minSlot ≤ m.slot) = false := by
      simp only [decide_eq_false_iff_not]; omega
    rw [hc]; simp
  · have hc : decide (f.maxSlot = 0 ∨ m.slot ≤ f.maxSlot) = false := by
      simp only [decide_eq_false_iff_not]; omega
    rw [hc]; simp
  · have hc : decide (f.startTime = zeroTimeU ∨ f.startTime ≤ m.timestamp) = false := by
      simp only [decide_eq_false_iff_not]; omega
    rw [hc]; simp
  · have hc : decide (f.endTime = zeroTimeU ∨ m.timestamp ≤ f.endTime) = false := by
      simp only [decide_eq_false_iff_not]; omega
    rw [hc]; simp
  · have hc : (decide (f.searchTerm = []) || searchHit m f.searchTerm) = false := by
      have e1 : decide (f.searchTerm = []) = false := by simp [h10.1]
      have e2 : searchHit m f.searchTerm = false := by simpa using h10.2
      rw [e1, e2]; rfl
    rw [hc]; simp
  · push_neg at h1 h2 h3 h4 h5
    have k1 : decide (f.solanaVersion = [] ∨ m.solanaVersion = f.solanaVersion) = true := by
      rcases Classical.em (f.solanaVersion = []) with h | h
      · exact decide_eq_true (Or.inl h)
      · exact decide_eq_true (Or.inr (h1 h))
    have k2 : decide (f.status = [] ∨ m.status = f.status) = true := by
      rcases Classical.em (f.status = []) with h | h
      · exact decide_eq_true (Or.inl h)
      · exact decide_eq_true (Or.inr (h2 h))
    have k3 : decide (f.uploadedBy = [] ∨ m.uploadedBy = f.uploadedBy) = true := by
      rcases Classical.em (f.uploadedBy = []) with h | h
      · exact decide_eq_true (Or.inl h)
      · exact decide_eq_true (Or.inr (h3 h))
    have k4 : decide (f.node = [] ∨ m.node = f.node) = true := by
      rcases Classical.em (f.node = []) with h | h
      · exact decide_eq_true (Or.inl h)
      · exact decide_eq_true (Or.inr (h4 h))
    have k5 : decide (f.slotRange = [] ∨ m.slotRange = f.slotRange) = true := by
      rcases Classical.em (f.slotRange = []) with h | h
      · exact decide_eq_true (Or.inl h)
      · exact decide_eq_true (Or.inr (h5 h))
    have k6 : decide (f.minSlot = 0 ∨ f.minSlot ≤ m.slot) = true :=
      decide_eq_true (by omega)
    have k7 : decide (f.maxSlot = 0 ∨ m.slot ≤ f.maxSlot) = true :=
      decide_eq_true (by omega)
    have k8 : decide (f.startTime = zeroTimeU ∨ f.startTime ≤ m.timestamp) = true :=
      decide_eq_true (by omega)
    have k9 : decide (f.endTime = zeroTimeU ∨ m.timestamp ≤ f.endTime) = true :=
      decide_eq_true (by omega)
    have k10 : (decide (f.searchTerm = []) || searchHit m f.searchTerm) = true := by
      rcases Classical.em (f.searchTerm = []) with h | h
      · simp [h]
      · have hs : searchHit m f.searchTerm = true := by
          by_contra hn
          exact h10 ⟨h, by simpa using hn⟩
        simp [hs]
    rw [k1, k2, k3, k4, k5, k6, k7, k8, k9, k10]
    rfl

/-! ### Lemmas about pagination -/

theorem one_le_pageParam (ps : Str) : 1 ≤ pageParam ps := by
  unfold pageParam
  split_ifs with h
  · cases hv : parseInt64 ps with
    | none => simp
    | some v =>
      simp only
      split_ifs with hpos
      · omega
      · omega
  · omega

theorem pageSizeParam_bounds (ss : Str) : 1 ≤ pageSizeParam ss ∧ pageSizeParam ss ≤ 100 := by
  unfold pageSizeParam
  split_ifs with h
  · cases hv : parseInt64 ss with
    | none => simp
    | some v =>
      simp only
      split_ifs with hpos hclamp
      · omega
      · omega
      · omega
  · omega

theorem paginate_out_of_range (l : List Metadata) (page pageSize : Int)
    (h : (l.length : Int) ≤ (page - 1) * pageSize) :
    paginateMetadata l page pageSize = ([], (l.length : Int)) := by
  unfold paginateMetadata calculatePaginationBounds
  simp only
  rw [if_pos (by omega : (page - 1) * pageSize ≥ (l.length : Int))]
  by_cases h0 : (0 : Int) < (l.length : Int)
  · rw [if_pos h0]
    simp [show ¬((l.length : Int) < 0) from by omega]
  · rw [if_neg h0]

/-! ### Claim theorems -/

/-- C2 counterexample: for totalCount = 45 and pageSize = 20, page 3 yields
the partial five-item page `[40:45]`, not an empty page as the claim states
(start = 40 is below the total, so only the end index is clipped). -/
theorem c2_counterexample :
    ((paginateMetadata (List.replicate 45 ({} : Metadata)) 3 20).1.length,
      (paginateMetadata (List.replicate 45 ({} : Metadata)) 3 20).2) = (5, 45) := by decide

/-- C2 (amended): pagination is 1-based; pageSize defaults to 20 when absent
or invalid and a supplied positive value is clamped to 100; a page whose
start index `(page-1)*pageSize` is at or past the total yields an empty page
with the total unchanged; and for totalCount = 45 with pageSize = 20, page 1
yields 20 items, page 3 yields the partial 5-item page, and page 10 yields 0
items with total still 45. -/
theorem c2_pagination_amended :
    (∀ ps ss : Str,
        1 ≤ (getPaginationParams ps ss).1 ∧
        1 ≤ (getPaginationParams ps ss).2 ∧ (getPaginationParams ps ss).2 ≤ 100) ∧
    (getPaginationParams [] [] = (1, 20)) ∧
    (∀ (ss : Str) (v : Int), parseInt64 ss = some v → 100 < v →
        (getPaginationParams [] ss).2 = 100) ∧
    (∀ (l : List Metadata) (page pageSize : Int),
        (l.length : Int) ≤ (page - 1) * pageSize →
        paginateMetadata l page pageSize = ([], (l.length : Int))) ∧
    ((paginateMetadata (List.replicate 45 ({} : Metadata)) 1 20).1.length = 20) ∧
    ((paginateMetadata (List.replicate 45 ({} : Metadata)) 3 20).1.length = 5) ∧
    (paginateMetadata (List.replicate 45 ({} : Metadata)) 10 20 = ([], 45)) := by
  refine ⟨?_, by decide, ?_, paginate_out_of_range, by decide, by decide, by decide⟩
  · intro ps ss
    exact ⟨one_le_pageParam ps, (pageSizeParam_bounds ss).1, (pageSizeParam_bounds ss).2⟩
  · intro ss v hv hgt
    have hne : ss ≠ [] := by
      intro hss
      rw [hss] at hv
      exact Option.noConfusion hv
    show pageSizeParam ss = 100
    unfold pageSizeParam
    rw [if_pos hne, hv]
    simp only
    rw [if_pos (by omega : v > 0), if_pos (by omega : v > 100)]

/-- C2 witness: the amended out-of-range clause applied at page 10,
pageSize 20, totalCount 45. -/
theorem c2_witness :
    paginateMetadata (List.replicate 45 ({} : Metadata)) 10 20 = ([], 45) := by
  have h := c2_pagination_amended.2.2.2.1 (List.replicate 45 ({} : Metadata)) 10 20 (by decide)
  simpa using h

/-- C4 counterexample: three matching records — two with known timestamps
whose slot order opposes their timestamp order and one with the zero
timestamp and a slot between theirs — admit no ordering at all that
satisfies the claimed pairwise property: all six arrangements of
`mixA, mixB, mixC` violate it, so the sorted list cannot satisfy the claim
whatever order the unstable sort produces. -/
theorem c4_counterexample :
    ([[mixA, mixB, mixC], [mixA, mixC, mixB], [mixB, mixA, mixC],
      [mixB, mixC, mixA], [mixC, mixA, mixB], [mixC, mixB, mixA]].all
        fun l => !claimOrderedB l) = true := by decide

/-- C4 (amended): the comparator sorts by timestamp descending when both
timestamps are known and by slot descending when either is the zero time;
consequently, when all matching records carry known timestamps the sorted
list is pairwise timestamp-descending, when all carry the zero timestamp it
is pairwise slot-descending, and it is always a permutation of the matches —
but for mixed sets no pairwise guarantee exists (see the counterexample),
the limitation §9 documents. -/
theorem c4_sort_amended :
    (∀ l : List Metadata, (∀ x ∈ l, x.timestamp ≠ zeroTimeU) →
       (sortMetadata l).Pairwise fun a b => b.timestamp ≤ a.timestamp) ∧
    (∀ l : List Metadata, (∀ x ∈ l, x.timestamp = zeroTimeU) →
       (sortMetadata l).Pairwise fun a b => b.slot ≤ a.slot) ∧
    (∀ l : List Metadata, List.Perm (sortMetadata l) l) := by
  refine ⟨?_, ?_, fun l => sortByLe_perm _ l⟩
  · intro l hl
    have htot : ∀ x y : Metadata, x.timestamp ≠ zeroTimeU → y.timestamp ≠ zeroTimeU →
        metadataSortLe x y = true ∨ metadataSortLe y x = true := by
      intro x y hx hy
      rw [metadataSortLe_nonzero hx hy, metadataSortLe_nonzero hy hx]
      omega
    have htrans : ∀ x y z : Metadata, x.timestamp ≠ zeroTimeU → y.timestamp ≠ zeroTimeU →
        z.timestamp ≠ zeroTimeU → metadataSortLe x y = true → metadataSortLe y z = true →
        metadataSortLe x z = true := by
      intro x y z hx hy hz
      rw [metadataSortLe_nonzero hx hy, metadataSortLe_nonzero hy hz,
        metadataSortLe_nonzero hx hz]
      omega
    have pw := pairwise_sortByLe (P := fun x : Metadata => x.timestamp ≠ zeroTimeU)
      htot htrans l hl
    have hmem : ∀ x ∈ sortMetadata l, x.timestamp ≠ zeroTimeU := fun x hx =>
      hl x (mem_sortByLe.mp hx)
    exact List.Pairwise.imp_of_mem
      (fun hma hmb hle => (metadataSortLe_nonzero (hmem _ hma) (hmem _ hmb)).mp hle) pw
  · intro l hl
    have htot : ∀ x y : Metadata, x.timestamp = zeroTimeU → y.timestamp = zeroTimeU →
        metadataSortLe x y = true ∨ metadataSortLe y x = true := by
      intro x y hx hy
      rw [metadataSortLe_zero hx, metadataSortLe_zero hy]
      omega
    have htrans : ∀ x y z : Metadata, x.timestamp = zeroTimeU → y.timestamp = zeroTimeU →
        z.timestamp = zeroTimeU → metadataSortLe x y = true → metadataSortLe y z = true →
        metadataSortLe x z = true := by
      intro x y z hx hy hz
      rw [metadataSortLe_zero hx, metadataSortLe_zero hy, metadataSortLe_zero hx]
      omega
    have pw := pairwise_sortByLe (P := fun x : Metadata => x.timestamp = zeroTimeU)
      htot htrans l hl
    have hmem : ∀ x ∈ sortMetadata l, x.timestamp = zeroTimeU := fun x hx =>
      hl x (mem_sortByLe.mp hx)
    exact List.Pairwise.imp_of_mem
      (fun hma _hmb hle => (metadataSortLe_zero (hmem _ hma)).mp hle) pw

/-- C4 witness: the amended all-timestamped clause applied at the concrete
two-record list. -/
theorem c4_witness :
    (sortMetadata [mixA, mixB]).Pairwise fun a b => b.timestamp ≤ a.timestamp :=
  c4_sort_amended.1 [mixA, mixB] (by decide)

/-- C5: the filter is the conjunction of its independent per-field tests
(string fields by exact equality, minSlot and maxSlot as inclusive bounds
ignored when zero, start and end time as inclusive bounds ignored when
unset, the search term as a case-insensitive substring over version, status,
uploader, node, hash and file name); filtering twice with the same filter
equals filtering once; and the all-empty filter keeps every record.  The
slot-bound clauses are stated for non-negative bounds, the domain the data
model gives them. -/
theorem c5_filter_conjunctive :
    (∀ (m : Metadata) (f : MetadataFilter), 0 ≤ f.minSlot → 0 ≤ f.maxSlot →
        matchesFilter m f = claimKeeps m f) ∧
    (∀ (f : MetadataFilter) (l : List Metadata),
        ((l.filter fun m => matchesFilter m f).filter fun m => matchesFilter m f) =
          (l.filter fun m => matchesFilter m f)) ∧
    (∀ m : Metadata, matchesFilter m emptyFilter = true) := by
  refine ⟨matchesFilter_eq_claimKeeps, ?_, ?_⟩
  · intro f l
    rw [List.filter_filter]
    simp only [Bool.and_self]
  · intro m
    simp [matchesFilter, emptyFilter]

/-- C5 witness: the conjunctive characterization applied at a concrete
record and the all-empty filter. -/
theorem c5_witness :
    0 ≤ emptyFilter.minSlot ∧ matchesFilter mixA emptyFilter = claimKeeps mixA emptyFilter :=
  ⟨by decide, c5_filter_conjunctive.1 mixA emptyFilter (by decide) (by decide)⟩

/-- C8: when the hub processes a broadcast, a registered client whose
outbound queue is full is removed (no element of the new client set carries
its identity), every client with room receives the message, and a client
with room for two messages receives both this and the following broadcast.
The hub never waits on a full queue by construction: the broadcast step is
the non-blocking `select`/`default` send, total on every state. -/
theorem c8_hub_broadcast (cap : Nat) (clients : List HClient) (m m2 : Str) (c : HClient)
    (hmem : c ∈ clients) :
    ((clients.map HClient.id).Nodup → ¬c.queue.length < cap →
       ∀ x ∈ broadcastStep cap clients m, x.id ≠ c.id) ∧
    (c.queue.length < cap →
       { c with queue := c.queue ++ [m] } ∈ broadcastStep cap clients m) ∧
    (c.queue.length + 1 < cap →
       { c with queue := c.queue ++ [m, m2] } ∈ broadcastStep cap (broadcastStep cap clients m) m2) := by
  refine ⟨?_, fun hr => broadcast_delivers hmem hr, ?_⟩
  · intro hnodup hfull x hx hxid
    obtain ⟨c0, hc0, heq⟩ := List.mem_filterMap.mp hx
    by_cases hroom : c0.queue.length < cap
    · rw [if_pos hroom] at heq
      have hx0 : ({ c0 with queue := c0.queue ++ [m] } : HClient) = x :=
        Option.some_injective _ heq
      have hid : c0.id = c.id := by
        rw [← hx0] at hxid
        exact hxid
      have hcc : c0 = c := List.inj_on_of_nodup_map hnodup hc0 hmem hid
      rw [hcc] at hroom
      exact hfull hroom
    · rw [if_neg hroom] at heq
      exact Option.noConfusion heq
  · intro h1
    have hroom1 : c.queue.length < cap := Nat.lt_of_succ_lt h1
    have step1 := broadcast_delivers (m := m) hmem hroom1
    have hroom2 : ({ c with queue := c.queue ++ [m] } : HClient).queue.length < cap := by
      simp only [List.length_append, List.length_cons, List.length_nil]
      omega
    have step2 := broadcast_delivers (m := m2) step1 hroom2
    simpa using step2

/-- C8 witness: with capacity 1, a broadcast evicts the full client 1 (the
surviving concrete client has a different identity) and delivers to the
empty-queue client 2. -/
theorem c8_witness :
    (({ id := 2, queue := [['b']] } : HClient).id ≠ 1 ∧
      ({ id := 2, queue := [['b']] } : HClient) ∈
        broadcastStep 1 [{ id := 1, queue := [['a']] }, { id := 2, queue := [] }] ['b']) := by
  have hFull := c8_hub_broadcast 1 [{ id := 1, queue := [['a']] }, { id := 2, queue := [] }]
    ['b'] ['c'] { id := 1, queue := [['a']] } (by decide)
  have hOk := c8_hub_broadcast 1 [{ id := 1, queue := [['a']] }, { id := 2, queue := [] }]
    ['b'] ['c'] { id := 2, queue := [] } (by decide)
  have h2 := hOk.2.1 (by decide)
  have h1 := hFull.1 (by decide) (by decide) ({ id := 2, queue := [['b']] }) (by simpa using h2)
  exact ⟨h1, by simpa using h2⟩

/-- C7: `getSlotRange` buckets into 1,000,000-wide windows — it equals the
spec's description for every non-negative slot (sentinel `< 1M` below one
million, otherwise `<startM>-<endM>` with start = floor(slot/1e6)*1e6) —
and the four boundary examples evaluate as the spec states. -/
theorem c7_slot_range :
    (∀ slot : Int, 0 ≤ slot → getSlotRange slot = slotRangeSpec slot) ∧
    (getSlotRange 0 = ltOneM) ∧ (getSlotRange 999999 = ltOneM) ∧
    (getSlotRange 1000000 = "1M-2M".toList) ∧ (getSlotRange 2500000 = "2M-3M".toList) := by
  refine ⟨?_, by decide, by decide, by decide, by decide⟩
  intro slot hs
  unfold getSlotRange slotRangeSpec
  simp only
  have htd : Int.tdiv slot 1000000 = slot / 1000000 := Int.tdiv_eq_ediv hs (by omega)
  have hmod := Int.emod_add_ediv slot 1000000
  have hmodlt : slot % 1000000 < 1000000 := Int.emod_lt_of_pos slot (by omega)
  have hmodge : 0 ≤ slot % 1000000 := Int.emod_nonneg slot (by omega)
  have hcase : Int.tdiv slot 1000000 * 1000000 = 0 ↔ slot < 1000000 := by
    rw [htd]
    constructor
    · intro h
      have hq : slot / 1000000 = 0 := by
        rcases mul_eq_zero.mp h with h' | h'
        · exact h'
        · omega
      omega
    · intro h
      have hq : slot / 1000000 = 0 := Int.ediv_eq_zero_of_lt hs h
      rw [hq, zero_mul]
  by_cases hlt : slot < 1000000
  · rw [if_pos (hcase.mpr hlt), if_pos hlt]
  · rw [if_neg (fun h => hlt (hcase.mp h)), if_neg hlt]
    have h1 : Int.tdiv (Int.tdiv slot 1000000 * 1000000) 1000000 = Int.tdiv slot 1000000 :=
      Int.mul_tdiv_cancel _ (by omega)
    have h2 : Int.tdiv (Int.tdiv slot 1000000 * 1000000 + 1000000) 1000000 =
        Int.tdiv slot 1000000 + 1 := by
      have he : Int.tdiv slot 1000000 * 1000000 + 1000000 =
          (Int.tdiv slot 1000000 + 1) * 1000000 := by ring
      rw [he, Int.mul_tdiv_cancel _ (by omega)]
    rw [h1, h2]

/-- C7 witness: the general clause applied at slot 2500000. -/
theorem c7_witness :
    0 ≤ (2500000 : Int) ∧ getSlotRange 2500000 = slotRangeSpec 2500000 :=
  ⟨by decide, c7_slot_range.1 2500000 (by decide)⟩

/-- C1: the indexing pass never persists the built facets — `cacheWrites`
records every `cacheService.Set` call of a pass and is always empty (the
source declares `cacheExpiration = 5 * time.Minute` and never uses it) — so
a second invocation still sees an empty cache and, on any cache miss, every
invocation performs a bucket listing; only an externally populated cache
reaches the cache-hit path. -/
theorem c1_no_cache_persist :
    (∀ (env : IndexEnv) (s : HandlerState), (indexMetadata env s).cacheWrites = []) ∧
    (∀ (env : IndexEnv) (s : HandlerState), env.cacheResult = none →
        (indexMetadata env s).didList = true) ∧
    (∀ (env : IndexEnv) (s : HandlerState) (opts : FilterOptions), env.cacheResult = some opts →
        indexMetadata env s =
          { state := { filterOptions := opts }, didList := false, cacheWrites := [] }) := by
  refine ⟨?_, ?_, ?_⟩
  · intro env s
    unfold indexMetadata
    cases env.cacheResult with
    | some opts => rfl
    | none =>
      cases env.listing with
      | error e => rfl
      | ok objs =>
        simp only
        split_ifs <;> rfl
  · intro env s h
    unfold indexMetadata
    rw [h]
    cases env.listing with
    | error e => rfl
    | ok objs =>
      simp only
      split_ifs <;> rfl
  · intro env s opts h
    unfold indexMetadata
    rw [h]

/-- C1 witness: a concrete cache-miss pass over an empty bucket writes
nothing to the cache and performs the listing. -/
theorem c1_witness :
    (indexMetadata ⟨none, Except.ok [], fun _ => Except.error ()⟩
        { filterOptions := emptyOptions }).cacheWrites = [] ∧
    (indexMetadata ⟨none, Except.ok [], fun _ => Except.error ()⟩
        { filterOptions := emptyOptions }).didList = true :=
  ⟨c1_no_cache_persist.1 _ _, c1_no_cache_persist.2.1 _ _ rfl⟩

/-! ### Lemmas about the indexing pass -/

theorem indexFileStep_fetch_eq {f g : Str → Except Unit FetchOutcome} {k : Str}
    (h : f k = g k) (acc : FacetAcc) : indexFileStep f acc k = indexFileStep g acc k := by
  unfold indexFileStep
  rw [h]

theorem indexFileStep_error_unparsable {f g : Str → Except Unit FetchOutcome} {k : Str} {cl : Int}
    (hf : f k = Except.error ()) (hg : g k = Except.ok { doc := ParsedDoc.unparsable, contentLength := cl })
    (acc : FacetAcc) : indexFileStep f acc k = indexFileStep g acc k := by
  unfold indexFileStep
  rw [hf, hg]
  rfl

theorem foldl_indexFileStep_ext {f g : Str → Except Unit FetchOutcome} :
    ∀ (files : List Str) (acc : FacetAcc),
      (∀ k ∈ files, ∀ a, indexFileStep f a k = indexFileStep g a k) →
      files.foldl (indexFileStep f) acc = files.foldl (indexFileStep g) acc := by
  intro files
  induction files with
  | nil => intro acc _; rfl
  | cons k files ih =>
    intro acc h
    rw [List.foldl_cons, List.foldl_cons, h k (List.mem_cons_self k files) acc]
    exact ih _ fun k' hk' a => h k' (List.mem_cons_of_mem k hk') a

theorem mem_insertSet {l : List Str} {x y : Str} (hy : y ∈ insertSet l x) : y ∈ l ∨ y = x := by
  unfold insertSet at hy
  split_ifs at hy with h
  · exact Or.inl hy
  · rcases List.mem_append.mp hy with h' | h'
    · exact Or.inl h'
    · exact Or.inr (List.mem_singleton.mp h')

theorem good_insert {l : List Str} {x : Str}
    (hl : ∀ y ∈ l, y ≠ [] ∧ y ≠ unknownLit) (hx : x ≠ [] ∧ x ≠ unknownLit) :
    ∀ y ∈ insertSet l x, y ≠ [] ∧ y ≠ unknownLit := fun y hy =>
  (mem_insertSet hy).elim (hl y) fun h => h ▸ hx

theorem goodAcc_addStrict {acc : FacetAcc} (d : StrictDoc) (hg : GoodAcc acc) :
    GoodAcc (addStrict acc d) := by
  obtain ⟨hv, hs, hu⟩ := hg
  unfold addStrict
  split_ifs <;>
    exact ⟨by first | exact good_insert hv ‹_› | exact hv,
           by first | exact good_insert hs ‹_› | exact hs,
           by first | exact good_insert hu ‹_› | exact hu⟩

theorem goodAcc_addGeneric {acc : FacetAcc} (g : GenericDoc) (hg : GoodAcc acc) :
    GoodAcc (addGeneric acc g) := by
  obtain ⟨hv, hs, hu⟩ := hg
  unfold addGeneric
  rcases g with ⟨sv, st, ub, sl, ha, ts⟩
  cases sv <;> cases st <;> cases ub <;> simp only <;>
    first
      | exact ⟨hv, hs, hu⟩
      | (split_ifs <;>
          exact ⟨by first | exact good_insert hv ‹_› | exact hv,
                 by first | exact good_insert hs ‹_› | exact hs,
                 by first | exact good_insert hu ‹_› | exact hu⟩)

theorem goodAcc_fileName {acc : FacetAcc} (k : Str) (hg : GoodAcc acc) :
    GoodAcc (fileNameFacets acc k) := by
  unfold fileNameFacets
  split_ifs
  · exact hg
  · exact hg

theorem goodAcc_body {acc : FacetAcc} (r : Except Unit FetchOutcome) (hg : GoodAcc acc) :
    GoodAcc (bodyFacets acc r) := by
  rcases r with e | ⟨doc, cl⟩
  · exact hg
  · cases doc with
    | strict d => exact goodAcc_addStrict d hg
    | generic g => exact goodAcc_addGeneric g hg
    | unparsable => exact hg

theorem goodAcc_step {f : Str → Except Unit FetchOutcome} {acc : FacetAcc} (k : Str)
    (hg : GoodAcc acc) : GoodAcc (indexFileStep f acc k) :=
  goodAcc_body (f k) (goodAcc_fileName k hg)

theorem goodAcc_run (f : Str → Except Unit FetchOutcome) :
    ∀ (files : List Str) (acc : FacetAcc), GoodAcc acc →
      GoodAcc (files.foldl (indexFileStep f) acc) := by
  intro files
  induction files with
  | nil => intro acc hg; exact hg
  | cons k files ih =>
    intro acc hg
    rw [List.foldl_cons]
    exact ih _ (goodAcc_step k hg)

/-- C9: a failed bucket listing aborts the pass with the published facets
unchanged, while sidecar fetch failures do not: replacing one file's failing
fetch by a fetch of undecodable bytes changes nothing (the file is skipped
either way), and a pass that obtains a listing always completes and installs
facets that do not depend on the previously published ones. -/
theorem c9_index_failures :
    (∀ (env : IndexEnv) (s : HandlerState), env.cacheResult = none →
        env.listing = Except.error () → (indexMetadata env s).state = s) ∧
    (∀ (objs : List S3Object) (f g : Str → Except Unit FetchOutcome) (s : HandlerState)
        (k : Str) (cl : Int),
        (∀ k', k' ≠ k → f k' = g k') → f k = Except.error () →
        g k = Except.ok { doc := ParsedDoc.unparsable, contentLength := cl } →
        indexMetadata ⟨none, Except.ok objs, f⟩ s = indexMetadata ⟨none, Except.ok objs, g⟩ s) ∧
    (∀ (env : IndexEnv) (s s2 : HandlerState) (objs : List S3Object),
        env.cacheResult = none → env.listing = Except.ok objs →
        (indexMetadata env s).state = (indexMetadata env s2).state) := by
  refine ⟨?_, ?_, ?_⟩
  · intro env s hc hl
    unfold indexMetadata
    rw [hc, hl]
  · intro objs f g s k cl hne hf hg
    unfold indexMetadata
    simp only
    split_ifs with hemp
    · rfl
    · have hrun : runIndexAcc f ((objs.filter fun o =>
          objIsMetadata o && isSnapshotMetadataFile o.key).map S3Object.key) =
          runIndexAcc g ((objs.filter fun o =>
          objIsMetadata o && isSnapshotMetadataFile o.key).map S3Object.key) := by
        unfold runIndexAcc
        refine foldl_indexFileStep_ext _ _ fun k2 _ a => ?_
        by_cases hk : k2 = k
        · rw [hk]
          exact indexFileStep_error_unparsable hf hg a
        · exact indexFileStep_fetch_eq (hne k2 hk) a
      rw [hrun]
  · intro env s s2 objs hc hl
    unfold indexMetadata
    rw [hc, hl]

/-- C9 witness: the abort clause applied at a concrete failing listing. -/
theorem c9_witness :
    (indexMetadata ⟨none, Except.error (), fun _ => Except.error ()⟩
        { filterOptions := emptyOptions }).state = { filterOptions := emptyOptions } :=
  c9_index_failures.1 _ _ rfl rfl

/-- C10: a pass that actually indexes (cache miss, listing obtained) never
publishes the empty string or the literal `unknown` in the solana-version,
status, or uploaded-by facet lists — both decode tiers insert those three
facets only under the guards `value != "" && value != "unknown"`. -/
theorem c10_facet_no_unknown :
    ∀ (env : IndexEnv) (s : HandlerState) (objs : List S3Object),
      env.cacheResult = none → env.listing = Except.ok objs →
      ((∀ x ∈ (indexMetadata env s).state.filterOptions.solanaVersions, x ≠ [] ∧ x ≠ unknownLit) ∧
       (∀ x ∈ (indexMetadata env s).state.filterOptions.statuses, x ≠ [] ∧ x ≠ unknownLit) ∧
       (∀ x ∈ (indexMetadata env s).state.filterOptions.uploadedBy, x ≠ [] ∧ x ≠ unknownLit)) := by
  intro env s objs hc hl
  unfold indexMetadata
  rw [hc, hl]
  simp only
  split_ifs with hemp
  · exact ⟨by simp [emptyOptions], by simp [emptyOptions], by simp [emptyOptions]⟩
  · have hg : GoodAcc (runIndexAcc env.fetch ((objs.filter fun o =>
        objIsMetadata o && isSnapshotMetadataFile o.key).map S3Object.key)) :=
      goodAcc_run env.fetch _ {} ⟨by simp, by simp, by simp⟩
    obtain ⟨hv, hs, hu⟩ := hg
    exact ⟨fun x hx => hv x (mem_sortByLe.mp hx),
           fun x hx => hs x (mem_sortByLe.mp hx),
           fun x hx => hu x (mem_sortByLe.mp hx)⟩

/-- C10 witness: the invariant applied at a concrete pass whose single
sidecar decodes to the version `unknown` — the literal never reaches the
published version facet. -/
theorem c10_witness :
    unknownLit ∉ (indexMetadata
        ⟨none,
         Except.ok [{ key := "snapshot-1-a.json".toList }],
         fun _ => Except.ok { doc := ParsedDoc.strict { solanaVersion := "unknown".toList }, contentLength := 3 }⟩
        { filterOptions := emptyOptions }).state.filterOptions.solanaVersions := fun hmem =>
  ((c10_facet_no_unknown _ _ _ rfl rfl).1 unknownLit hmem).2 rfl

/-! ### Lemmas about the sidecar key pattern and the version order -/

theorem takeWhile_app {p : Char → Bool} {d r : Str}
    (hd : ∀ c ∈ d, p c = true) (hr : ∀ c, r.head? = some c → p c = false) :
    (d ++ r).takeWhile p = d ∧ (d ++ r).dropWhile p = r := by
  induction d with
  | nil =>
    simp only [List.nil_append]
    cases r with
    | nil => exact ⟨rfl, rfl⟩
    | cons c r2 =>
      have hc : p c = false := hr c rfl
      rw [List.takeWhile_cons, List.dropWhile_cons, hc]
      exact ⟨rfl, rfl⟩
  | cons a d2 ih =>
    have ha : p a = true := hd a (List.mem_cons_self a d2)
    have ih2 := ih (fun c hc => hd c (List.mem_cons_of_mem a hc))
    rw [List.cons_append, List.takeWhile_cons, List.dropWhile_cons, ha]
    simp only [if_true]
    exact ⟨by rw [ih2.1], by rw [ih2.2]⟩

theorem isDigitC_ne_dash {c : Char} (h : isDigitC c = true) : c ≠ '-' := by
  intro hc
  rw [hc] at h
  exact absurd h (by decide)

theorem isDigitC_ne_plus {c : Char} (h : isDigitC c = true) : c ≠ '+' := by
  intro hc
  rw [hc] at h
  exact absurd h (by decide)

theorem tryMatch_snapKey {d a : Str}
    (hd1 : d ≠ []) (hd2 : ∀ c ∈ d, isDigitC c = true)
    (ha1 : a ≠ []) (ha2 : ∀ c ∈ a, isAlnumC c = true) :
    tryMatch (snapKey d a) = some (d, a) := by
  have h1 : snapLit.isPrefixOf (snapKey d a) = true :=
    List.isPrefixOf_iff_prefix.mpr ⟨_, rfl⟩
  have h2 : (snapKey d a).drop 9 = d ++ '-' :: (a ++ jsonLit) :=
    List.drop_left snapLit _
  have h34 := takeWhile_app (p := isDigitC) (r := '-' :: (a ++ jsonLit)) hd2
    (fun c hc => by
      rw [List.head?_cons, Option.some.injEq] at hc
      rw [← hc]
      decide)
  have h56 := takeWhile_app (p := isAlnumC) (r := jsonLit) ha2
    (fun c hc => by
      rw [show jsonLit.head? = some '.' from rfl, Option.some.injEq] at hc
      rw [← hc]
      decide)
  unfold tryMatch
  rw [h1]
  simp only [if_true, h2, h34.1, h34.2]
  rw [if_pos ⟨hd1, rfl⟩]
  simp only [List.tail_cons, h56.1, h56.2]
  rw [if_pos ⟨ha1, trivial⟩]

theorem tryMatch_sound {s : Str} {d a : Str} (h : tryMatch s = some (d, a)) :
    s = snapKey d a ∧ d ≠ [] ∧ (∀ c ∈ d, isDigitC c = true) ∧
      a ≠ [] ∧ (∀ c ∈ a, isAlnumC c = true) := by
  unfold tryMatch at h
  by_cases hp : snapLit.isPrefixOf s
  · rw [hp] at h
    simp only [if_true] at h
    obtain ⟨t, rfl⟩ := List.isPrefixOf_iff_prefix.mp hp
    rw [show List.drop 9 (snapLit ++ t) = t from List.drop_left snapLit t] at h
    split_ifs at h with hc1 hc2
    · rw [Option.some.injEq, Prod.mk.injEq] at h
      obtain ⟨hdeq, haeq⟩ := h
      obtain ⟨hdne, hdash⟩ := hc1
      obtain ⟨hane, hjs⟩ := hc2
      have hsplit1 : t.takeWhile isDigitC ++ t.dropWhile isDigitC = t :=
        List.takeWhile_append_dropWhile isDigitC t
      have hr1 : t.dropWhile isDigitC = '-' :: (t.dropWhile isDigitC).tail := by
        cases hcc : t.dropWhile isDigitC with
        | nil => rw [hcc] at hdash; exact Option.noConfusion hdash
        | cons c r2 =>
          rw [hcc] at hdash
          rw [List.head?_cons, Option.some.injEq] at hdash
          rw [hdash]
          rfl
      have hsplit2 : ((t.dropWhile isDigitC).tail).takeWhile isAlnumC ++
          ((t.dropWhile isDigitC).tail).dropWhile isAlnumC = (t.dropWhile isDigitC).tail :=
        List.takeWhile_append_dropWhile isAlnumC _
      have htail : (t.dropWhile isDigitC).tail = a ++ jsonLit := by
        rw [← hsplit2, haeq, hjs]
      have ht : t = d ++ '-' :: (a ++ jsonLit) := by
        conv_lhs => rw [← hsplit1]
        rw [hr1, hdeq, htail]
      refine ⟨?_, ?_, ?_, ?_, ?_⟩
      · rw [ht]
        simp [snapKey]
      · rw [← hdeq]; exact hdne
      · intro c hc
        rw [← hdeq] at hc
        exact List.mem_takeWhile_imp hc
      · rw [← haeq]; exact hane
      · intro c hc
        rw [← haeq] at hc
        exact List.mem_takeWhile_imp hc
  · rw [show snapLit.isPrefixOf s = false from Bool.eq_false_iff.mpr hp] at h
    simp only [if_false] at h
    exact Option.noConfusion h

theorem findMatch_of_tryMatch {s : Str} {x : Str × Str} (h : tryMatch s = some x) :
    findMatch s = some x := by
  cases s with
  | nil =>
    rw [show tryMatch ([] : Str) = none from by decide] at h
    exact Option.noConfusion h
  | cons c rest =>
    unfold findMatch
    rw [h]

theorem findMatch_sound {key d a : Str} (h : findMatch key = some (d, a)) :
    ∃ p, key = p ++ snapKey d a ∧ d ≠ [] ∧ (∀ c ∈ d, isDigitC c = true) ∧
      a ≠ [] ∧ (∀ c ∈ a, isAlnumC c = true) := by
  induction key with
  | nil => exact Option.noConfusion h
  | cons c rest ih =>
    unfold findMatch at h
    cases htm : tryMatch (c :: rest) with
    | some x =>
      rw [htm] at h
      simp only at h
      obtain rfl : x = (d, a) := Option.some_injective _ h
      obtain ⟨hs, r1, r2, r3, r4⟩ := tryMatch_sound htm
      exact ⟨[], by rw [List.nil_append, ← hs], r1, r2, r3, r4⟩
    | none =>
      rw [htm] at h
      simp only at h
      obtain ⟨p, hp, r1, r2, r3, r4⟩ := ih h
      exact ⟨c :: p, by rw [List.cons_append, ← hp], r1, r2, r3, r4⟩

theorem findMatch_complete {d a : Str}
    (hd1 : d ≠ []) (hd2 : ∀ c ∈ d, isDigitC c = true)
    (ha1 : a ≠ []) (ha2 : ∀ c ∈ a, isAlnumC c = true) :
    ∀ p : Str, (findMatch (p ++ snapKey d a)).isSome = true := by
  intro p
  induction p with
  | nil =>
    rw [List.nil_append, findMatch_of_tryMatch (tryMatch_snapKey hd1 hd2 ha1 ha2)]
    rfl
  | cons c p2 ih =>
    rw [List.cons_append]
    cases htm : tryMatch (c :: (p2 ++ snapKey d a)) with
    | some x =>
      rw [findMatch_of_tryMatch htm]
      rfl
    | none =>
      unfold findMatch
      rw [htm]
      exact ih

theorem parseInt64_digits {d : Str} (h1 : d ≠ []) (h2 : ∀ c ∈ d, isDigitC c = true) :
    parseInt64 d = if digitsToNat d ≤ maxInt64N then some ((digitsToNat d : Int)) else none := by
  cases d with
  | nil => exact absurd rfl h1
  | cons c rest =>
    have hc : isDigitC c = true := h2 c (List.mem_cons_self c rest)
    unfold parseInt64
    dsimp only
    rw [if_neg (isDigitC_ne_dash hc)]
    simp only [if_neg (isDigitC_ne_plus hc)]
    unfold parseDigits
    rw [if_pos ⟨List.cons_ne_nil c rest, List.all_eq_true.mpr h2⟩]

theorem extract_snapKey {d a : Str}
    (hd1 : d ≠ []) (hd2 : ∀ c ∈ d, isDigitC c = true)
    (ha1 : a ≠ []) (ha2 : ∀ c ∈ a, isAlnumC c = true) :
    isSnapshotMetadataFile (snapKey d a) = true ∧
      extractSlotAndNode (snapKey d a) =
        (if digitsToNat d ≤ maxInt64N then ((digitsToNat d : Int), a) else (0, [])) := by
  have hfm : findMatch (snapKey d a) = some (d, a) :=
    findMatch_of_tryMatch (tryMatch_snapKey hd1 hd2 ha1 ha2)
  constructor
  · unfold isSnapshotMetadataFile
    rw [hfm]
    rfl
  · unfold extractSlotAndNode
    rw [hfm]
    simp only
    rw [parseInt64_digits hd1 hd2]
    by_cases hb : digitsToNat d ≤ maxInt64N
    · rw [if_pos hb, if_pos hb]
    · rw [if_neg hb, if_neg hb]

theorem extract_no_occurrence {key : Str}
    (hno : ¬ ∃ p d a : Str, key = p ++ snapKey d a ∧ d ≠ [] ∧
        (∀ c ∈ d, isDigitC c = true) ∧ a ≠ [] ∧ (∀ c ∈ a, isAlnumC c = true)) :
    isSnapshotMetadataFile key = false ∧ extractSlotAndNode key = (0, []) := by
  cases hfm : findMatch key with
  | none =>
    constructor
    · unfold isSnapshotMetadataFile
      rw [hfm]
      rfl
    · unfold extractSlotAndNode
      rw [hfm]
  | some x =>
    obtain ⟨d, a⟩ := x
    obtain ⟨p, hp, r1, r2, r3, r4⟩ := findMatch_sound hfm
    exact absurd ⟨p, d, a, hp, r1, r2, r3, r4⟩ hno

theorem sep_suffix_eq {p : Char → Bool} {c : Char} (hc : p c = false)
    {x1 x2 a1 a2 : Str}
    (h1 : ∀ ch ∈ a1, p ch = true) (h2 : ∀ ch ∈ a2, p ch = true)
    (h : x1 ++ c :: a1 = x2 ++ c :: a2) : x1 = x2 ∧ a1 = a2 := by
  have hrev := congrArg List.reverse h
  rw [List.reverse_append, List.reverse_append, List.reverse_cons, List.reverse_cons,
      List.append_assoc, List.append_assoc, List.singleton_append,
      List.singleton_append] at hrev
  have hcf1 : ∀ ch : Char, (c :: x1.reverse).head? = some ch → p ch = false := by
    intro ch hch
    rw [List.head?_cons, Option.some.injEq] at hch
    rw [← hch]
    exact hc
  have hcf2 : ∀ ch : Char, (c :: x2.reverse).head? = some ch → p ch = false := by
    intro ch hch
    rw [List.head?_cons, Option.some.injEq] at hch
    rw [← hch]
    exact hc
  have t1 := takeWhile_app (p := p) (d := a1.reverse) (r := c :: x1.reverse)
    (fun ch hch => h1 ch (List.mem_reverse.mp hch)) hcf1
  have t2 := takeWhile_app (p := p) (d := a2.reverse) (r := c :: x2.reverse)
    (fun ch hch => h2 ch (List.mem_reverse.mp hch)) hcf2
  have ha : a1.reverse = a2.reverse := by rw [← t1.1, ← t2.1, hrev]
  have hx : c :: x1.reverse = c :: x2.reverse := by rw [← t1.2, ← t2.2, hrev]
  have hx2 : x1.reverse = x2.reverse := by injection hx
  exact ⟨List.reverse_inj.mp hx2, List.reverse_inj.mp ha⟩

theorem snapKey_decomp_unique {p1 p2 d1 d2 a1 a2 : Str}
    (hd1 : ∀ c ∈ d1, isDigitC c = true) (hd2 : ∀ c ∈ d2, isDigitC c = true)
    (ha1 : ∀ c ∈ a1, isAlnumC c = true) (ha2 : ∀ c ∈ a2, isAlnumC c = true)
    (h : p1 ++ snapKey d1 a1 = p2 ++ snapKey d2 a2) :
    p1 = p2 ∧ d1 = d2 ∧ a1 = a2 := by
  have e : ∀ q d a : Str, q ++ snapKey d a =
      (((q ++ snapInit) ++ '-' :: d) ++ '-' :: a) ++ jsonLit := by
    intro q d a
    simp [snapKey, show snapLit = snapInit ++ ['-'] from rfl, List.append_assoc]
  rw [e p1 d1 a1, e p2 d2 a2] at h
  have h1 := List.append_cancel_right h
  have sA := sep_suffix_eq (show isAlnumC '-' = false from by decide) ha1 ha2 h1
  have sB := sep_suffix_eq (show isDigitC '-' = false from by decide) hd1 hd2 sA.1
  exact ⟨List.append_cancel_right sB.1, sB.2, sA.2⟩

theorem findMatch_tail {p d a : Str}
    (hd1 : d ≠ []) (hd2 : ∀ c ∈ d, isDigitC c = true)
    (ha1 : a ≠ []) (ha2 : ∀ c ∈ a, isAlnumC c = true) :
    findMatch (p ++ snapKey d a) = some (d, a) := by
  have hsome := findMatch_complete hd1 hd2 ha1 ha2 p
  cases hfm : findMatch (p ++ snapKey d a) with
  | none =>
    rw [hfm] at hsome
    exact Bool.noConfusion hsome
  | some x =>
    obtain ⟨d2, a2⟩ := x
    obtain ⟨p2, hkey, r1, r2, r3, r4⟩ := findMatch_sound hfm
    have hu := snapKey_decomp_unique hd2 r2 ha2 r4 hkey
    rw [hu.2.1, hu.2.2]

theorem extract_tail {p d a : Str}
    (hd1 : d ≠ []) (hd2 : ∀ c ∈ d, isDigitC c = true)
    (ha1 : a ≠ []) (ha2 : ∀ c ∈ a, isAlnumC c = true) :
    isSnapshotMetadataFile (p ++ snapKey d a) = true ∧
      extractSlotAndNode (p ++ snapKey d a) =
        (if digitsToNat d ≤ maxInt64N then ((digitsToNat d : Int), a) else (0, [])) := by
  have hfm := findMatch_tail (p := p) hd1 hd2 ha1 ha2
  constructor
  · unfold isSnapshotMetadataFile
    rw [hfm]
    rfl
  · unfold extractSlotAndNode
    rw [hfm]
    simp only
    rw [parseInt64_digits hd1 hd2]
    by_cases hb : digitsToNat d ≤ maxInt64N
    · rw [if_pos hb, if_pos hb]
    · rw [if_neg hb, if_neg hb]

theorem splitOnDot_ne_nil (s : Str) : splitOnDot s ≠ [] := by
  induction s with
  | nil => simp [splitOnDot]
  | cons c rest ih =>
    unfold splitOnDot
    cases h : splitOnDot rest with
    | nil => simp
    | cons w ws =>
      split_ifs <;> simp

theorem digits_no_dot {w : Str} (h : ∀ c ∈ w, isDigitC c = true) : '.' ∉ w :=
  fun hm => absurd (h '.' hm) (by decide)

theorem splitOnDot_no_dot {w : Str} (h : '.' ∉ w) : splitOnDot w = [w] := by
  induction w with
  | nil => rfl
  | cons c rest ih =>
    have hc : c ≠ '.' := fun hcc => h (hcc ▸ List.mem_cons_self c rest)
    have ih2 := ih fun hm => h (List.mem_cons_of_mem c hm)
    unfold splitOnDot
    rw [ih2]
    dsimp only
    rw [if_neg hc]

theorem splitOnDot_append {w s : Str} (h : '.' ∉ w) :
    splitOnDot (w ++ '.' :: s) = w :: splitOnDot s := by
  induction w with
  | nil =>
    rw [List.nil_append]
    conv_lhs => unfold splitOnDot
    cases hs : splitOnDot s with
    | nil => exact absurd hs (splitOnDot_ne_nil s)
    | cons w2 ws =>
      dsimp only
      rw [if_pos rfl]
  | cons c w2 ih =>
    have hc : c ≠ '.' := fun hcc => h (hcc ▸ List.mem_cons_self c w2)
    have ih2 := ih fun hm => h (List.mem_cons_of_mem c hm)
    rw [List.cons_append]
    conv_lhs => unfold splitOnDot
    rw [ih2]
    dsimp only
    rw [if_neg hc]

theorem splitOnDot_verStr {d1 d2 d3 : Str}
    (h1 : '.' ∉ d1) (h2 : '.' ∉ d2) (h3 : '.' ∉ d3) :
    splitOnDot (verStr d1 d2 d3) = [d1, d2, d3] := by
  unfold verStr
  rw [splitOnDot_append h1, splitOnDot_append h2, splitOnDot_no_dot h3]

theorem parseInt64_pure {d : Str} (h : pureDigits d) :
    parseInt64 d = some ((digitsToNat d : Int)) := by
  obtain ⟨h1, h2, h3⟩ := h
  rw [parseInt64_digits h1 (List.all_eq_true.mp h2), if_pos h3]

theorem stageNE_some {a b : Str} {va vb : Int}
    (ha : parseInt64 a = some va) (hb : parseInt64 b = some vb) :
    stageNE (some a) (some b) = if va ≠ vb then some (decide (va < vb)) else none := by
  unfold stageNE
  dsimp only
  rw [ha, hb]

theorem stageNE_parse_none {a b : Str} (ha : parseInt64 a = none) :
    stageNE (some a) (some b) = none := by
  unfold stageNE
  dsimp only
  rw [ha]

theorem stagePatch_some {a b : Str} {va vb : Int}
    (ha : parseInt64 a = some va) (hb : parseInt64 b = some vb) :
    stagePatch (some a) (some b) = some (decide (va < vb)) := by
  unfold stagePatch
  dsimp only
  rw [ha, hb]

theorem versionLess_numeric {d1 d2 d3 e1 e2 e3 : Str}
    (hd1 : pureDigits d1) (hd2 : pureDigits d2) (hd3 : pureDigits d3)
    (he1 : pureDigits e1) (he2 : pureDigits e2) (he3 : pureDigits e3) :
    versionLess (verStr d1 d2 d3) (verStr e1 e2 e3) =
      numLess (digitsToNat d1) (digitsToNat d2) (digitsToNat d3)
        (digitsToNat e1) (digitsToNat e2) (digitsToNat e3) := by
  have hs1 : splitOnDot (verStr d1 d2 d3) = [d1, d2, d3] :=
    splitOnDot_verStr (digits_no_dot (List.all_eq_true.mp hd1.2.1))
      (digits_no_dot (List.all_eq_true.mp hd2.2.1)) (digits_no_dot (List.all_eq_true.mp hd3.2.1))
  have hs2 : splitOnDot (verStr e1 e2 e3) = [e1, e2, e3] :=
    splitOnDot_verStr (digits_no_dot (List.all_eq_true.mp he1.2.1))
      (digits_no_dot (List.all_eq_true.mp he2.2.1)) (digits_no_dot (List.all_eq_true.mp he3.2.1))
  unfold versionLess
  rw [hs1, hs2]
  simp only [List.getElem?_cons_zero, List.getElem?_cons_succ]
  rw [stageNE_some (parseInt64_pure hd1) (parseInt64_pure he1),
      stageNE_some (parseInt64_pure hd2) (parseInt64_pure he2),
      stagePatch_some (parseInt64_pure hd3) (parseInt64_pure he3)]
  unfold numLess
  by_cases h1 : digitsToNat d1 = digitsToNat e1
  · rw [if_neg (show ¬((digitsToNat d1 : Int) ≠ (digitsToNat e1 : Int)) from by simpa using h1),
        if_neg (show ¬(digitsToNat d1 ≠ digitsToNat e1) from by omega)]
    dsimp only
    by_cases h2 : digitsToNat d2 = digitsToNat e2
    · rw [if_neg (show ¬((digitsToNat d2 : Int) ≠ (digitsToNat e2 : Int)) from by simpa using h2),
          if_neg (show ¬(digitsToNat d2 ≠ digitsToNat e2) from by omega)]
      dsimp only
      simp [Int.ofNat_lt]
    · rw [if_pos (show (digitsToNat d2 : Int) ≠ (digitsToNat e2 : Int) from by simpa using h2),
          if_pos (show digitsToNat d2 ≠ digitsToNat e2 from by omega)]
      dsimp only
      simp [Int.ofNat_lt]
  · rw [if_pos (show (digitsToNat d1 : Int) ≠ (digitsToNat e1 : Int) from by simpa using h1),
        if_pos (show digitsToNat d1 ≠ digitsToNat e1 from by omega)]
    dsimp only
    simp [Int.ofNat_lt]

theorem versionLess_fallback {x y : Str} (hx : '.' ∉ x) (hy : '.' ∉ y)
    (hpx : parseInt64 x = none) (hpy : parseInt64 y = none) :
    versionLess x y = strLt x y := by
  unfold versionLess
  rw [splitOnDot_no_dot hx, splitOnDot_no_dot hy]
  simp only [List.getElem?_cons_zero, List.getElem?_cons_succ, List.getElem?_nil]
  rw [stageNE_parse_none hpx]
  rfl

/-- C3 counterexample: matching is suffix-anchored, so the key
`asnapshot-123-abc.json` — not of the exact shape `snapshot-<N>-<node>.json`
— still yields `(123, "abc")` rather than `(0, "")`; and a key of the exact
shape whose `N` (22 digits) overflows a signed 64-bit integer classifies as
a metadata candidate yet yields `(0, "")` rather than `(N, node)`. -/
theorem c3_counterexample :
    (isExactSidecarShape "asnapshot-123-abc.json".toList = false ∧
      extractSlotAndNode "asnapshot-123-abc.json".toList = (123, "abc".toList)) ∧
    (isExactSidecarShape "snapshot-9999999999999999999999-a.json".toList = true ∧
      extractSlotAndNode "snapshot-9999999999999999999999-a.json".toList = (0, [])) := by
  decide

/-- C3 (amended): for every key exactly of the shape
`snapshot-<N>-<node>.json` with `N` a digit string whose value fits a signed
64-bit integer and `node` alphanumeric, classification reports a metadata
candidate and `extractSlotAndNode` returns `(N, node)`; when `N` overflows,
the key still classifies as a candidate but the extraction returns
`(0, "")`; matching being suffix-anchored, every key with arbitrary extra
characters before such a tail also classifies as a candidate and yields the
tail's `(N, node)` — the decomposition into prefix and matching tail is
unique, so the leftmost match is the tail; a key classifies as a metadata
candidate exactly when the pattern occurs in it ending at its end; and
`extractSlotAndNode` returns `(0, "")` exactly when no such occurrence with
an int64-range `N` exists (wrong delimiter, missing node, `.tar.gz` suffix,
unrelated `.json`, overflowing `N`). -/
theorem c3_extract_amended :
    (∀ d a : Str, d ≠ [] → (∀ c ∈ d, isDigitC c = true) → digitsToNat d ≤ maxInt64N →
        a ≠ [] → (∀ c ∈ a, isAlnumC c = true) →
        isSnapshotMetadataFile (snapKey d a) = true ∧
          extractSlotAndNode (snapKey d a) = ((digitsToNat d : Int), a)) ∧
    (∀ d a : Str, d ≠ [] → (∀ c ∈ d, isDigitC c = true) → maxInt64N < digitsToNat d →
        a ≠ [] → (∀ c ∈ a, isAlnumC c = true) →
        isSnapshotMetadataFile (snapKey d a) = true ∧
          extractSlotAndNode (snapKey d a) = (0, [])) ∧
    (∀ p d a : Str, d ≠ [] → (∀ c ∈ d, isDigitC c = true) → digitsToNat d ≤ maxInt64N →
        a ≠ [] → (∀ c ∈ a, isAlnumC c = true) →
        isSnapshotMetadataFile (p ++ snapKey d a) = true ∧
          extractSlotAndNode (p ++ snapKey d a) = ((digitsToNat d : Int), a)) ∧
    (∀ key : Str, isSnapshotMetadataFile key = true ↔
        ∃ p d a : Str, key = p ++ snapKey d a ∧ d ≠ [] ∧
          (∀ c ∈ d, isDigitC c = true) ∧ a ≠ [] ∧ (∀ c ∈ a, isAlnumC c = true)) ∧
    (∀ key : Str, extractSlotAndNode key = (0, []) ↔
        ¬ ∃ p d a : Str, key = p ++ snapKey d a ∧ d ≠ [] ∧
          (∀ c ∈ d, isDigitC c = true) ∧ digitsToNat d ≤ maxInt64N ∧
          a ≠ [] ∧ (∀ c ∈ a, isAlnumC c = true)) := by
  refine ⟨?_, ?_, ?_, ?_, ?_⟩
  · intro d a h1 h2 h3 h4 h5
    have h := extract_snapKey h1 h2 h4 h5
    exact ⟨h.1, by rw [h.2, if_pos h3]⟩
  · intro d a h1 h2 h3 h4 h5
    have h := extract_snapKey h1 h2 h4 h5
    exact ⟨h.1, by rw [h.2, if_neg (by omega)]⟩
  · intro p d a h1 h2 h3 h4 h5
    have h := extract_tail (p := p) h1 h2 h4 h5
    exact ⟨h.1, by rw [h.2, if_pos h3]⟩
  · intro key
    constructor
    · intro hcl
      unfold isSnapshotMetadataFile at hcl
      cases hfm : findMatch key with
      | none =>
        rw [hfm] at hcl
        exact Bool.noConfusion hcl
      | some x =>
        obtain ⟨d, a⟩ := x
        obtain ⟨p, hp, r1, r2, r3, r4⟩ := findMatch_sound hfm
        exact ⟨p, d, a, hp, r1, r2, r3, r4⟩
    · rintro ⟨p, d, a, hkey, r1, r2, r3, r4⟩
      rw [hkey]
      unfold isSnapshotMetadataFile
      exact findMatch_complete r1 r2 r3 r4 p
  · intro key
    constructor
    · intro hz
      rintro ⟨p, d, a, hkey, r1, r2, rb, r3, r4⟩
      have h := extract_tail (p := p) r1 r2 r3 r4
      rw [hkey, h.2, if_pos rb] at hz
      rw [Prod.mk.injEq] at hz
      exact r3 hz.2
    · intro hno
      cases hfm : findMatch key with
      | none =>
        unfold extractSlotAndNode
        rw [hfm]
      | some x =>
        obtain ⟨d, a⟩ := x
        obtain ⟨p, hkey, r1, r2, r3, r4⟩ := findMatch_sound hfm
        have hb : ¬ digitsToNat d ≤ maxInt64N := fun hb =>
          hno ⟨p, d, a, hkey, r1, r2, hb, r3, r4⟩
        unfold extractSlotAndNode
        rw [hfm]
        simp only
        rw [parseInt64_digits r1 r2, if_neg hb]

/-- C3 witness: the exact-shape clause applied at `snapshot-123-abc.json`. -/
theorem c3_witness :
    isSnapshotMetadataFile (snapKey "123".toList "abc".toList) = true ∧
      extractSlotAndNode (snapKey "123".toList "abc".toList) = (123, "abc".toList) := by
  have h := c3_extract_amended.1 "123".toList "abc".toList
    (by decide) (by decide) (by decide) (by decide) (by decide)
  exact ⟨h.1, by rw [h.2]; decide⟩

/-- C6: the facet ordering of solana versions sorts
`["1.10.0", "1.9.0", "1.2.0"]` to `["1.2.0", "1.9.0", "1.10.0"]` — numeric,
not lexicographic; on all-numeric `x.y.z` versions the comparator is exactly
the numeric major-then-minor-then-patch order; and on versions with no
numeric component at all it falls back to plain lexicographic comparison. -/
theorem c6_version_sort :
    (sortVersions ["1.10.0".toList, "1.9.0".toList, "1.2.0".toList] =
        ["1.2.0".toList, "1.9.0".toList, "1.10.0".toList]) ∧
    (∀ d1 d2 d3 e1 e2 e3 : Str,
        pureDigits d1 → pureDigits d2 → pureDigits d3 →
        pureDigits e1 → pureDigits e2 → pureDigits e3 →
        versionLess (verStr d1 d2 d3) (verStr e1 e2 e3) =
          numLess (digitsToNat d1) (digitsToNat d2) (digitsToNat d3)
            (digitsToNat e1) (digitsToNat e2) (digitsToNat e3)) ∧
    (∀ x y : Str, '.' ∉ x → '.' ∉ y → parseInt64 x = none → parseInt64 y = none →
        versionLess x y = strLt x y) := by
  refine ⟨by decide, ?_, ?_⟩
  · intro d1 d2 d3 e1 e2 e3 h1 h2 h3 h4 h5 h6
    exact versionLess_numeric h1 h2 h3 h4 h5 h6
  · intro x y hx hy hpx hpy
    exact versionLess_fallback hx hy hpx hpy

/-- C6 witness: the numeric clause applied at 2.0.0 versus 10.0.0 — the
two-digit major orders after the one-digit major. -/
theorem c6_witness :
    versionLess (verStr "2".toList "0".toList "0".toList)
      (verStr "10".toList "0".toList "0".toList) = true := by
  have h := c6_version_sort.2.1 "2".toList "0".toList "0".toList
    "10".toList "0".toList "0".toList
    ⟨by decide, by decide, by decide⟩ ⟨by decide, by decide, by decide⟩
    ⟨by decide, by decide, by decide⟩ ⟨by decide, by decide, by decide⟩
    ⟨by decide, by decide, by decide⟩ ⟨by decide, by decide, by decide⟩
  rw [h]
  decide


end S3B
